import Mathlib

/-!
Verification of the dataset-builder pipeline
(`src/Data Mining and Dataset/dataset-builder.py`).

Python strings are embedded as `List Char` (called `Str` below).  The
regular-expression reference extraction, the change-set scan loop, the
issue-centric inversion, the per-item fetch wrappers, the CSV row
flattening and the JSON cache round-trip are each translated into
executable Lean definitions, and the claimed properties are proved or
refuted about those definitions.

Modelling conventions:
* `\s` of the Python regex is modelled by its ASCII part
  (space, tab, newline, carriage return, vertical tab, form feed);
  `\d` by the ASCII digits.  All inputs of interest here are ASCII.
* Remote (GitHub) calls are a structure of functions returning
  `Except Str _`; a `.error` result models the exception that the
  source catches in its per-function `try/except` blocks.
* Python `dict`s are association lists with insertion-order semantics.
-/

namespace DatasetBuilder

/-- Python strings, embedded as lists of characters. -/
abbrev Str := List Char

/-- `COMMENT_DELIMITER = " || "`. -/
def COMMENT_DELIMITER : Str := (" || ").toList

/-- `FILE_CHANGE_DELIMITER = " || "`. -/
def FILE_CHANGE_DELIMITER : Str := (" || ").toList

/-- `COMMIT_MSG_DELIMITER = " || "`. -/
def COMMIT_MSG_DELIMITER : Str := (" || ").toList

/-- `PATCH_NEWLINE_DELIMITER = "|;|"`. -/
def PATCH_NEWLINE_DELIMITER : Str := ("|;|").toList

/-- Python `sep.join(xs)`. -/
def joinWith (sep : Str) : List Str → Str
  | [] => []
  | [x] => x
  | x :: xs => x ++ sep ++ joinWith sep xs

/-- Decimal digit characters. -/
def digitChars : Str := ('0' :: '1' :: '2' :: '3' :: '4' :: '5' :: '6' :: '7' :: '8' :: '9' :: [])

/-- The decimal digit character for `n < 10`. -/
def digitChar (n : Nat) : Char := digitChars.getD n '*'

/-- Fuel-driven decimal printer (the fuel is enough whenever it is `> n`). -/
def natToStrAux : Nat → Nat → Str
  | 0, _ => []
  | fuel + 1, n => if n < 10 then [digitChar n] else natToStrAux fuel (n / 10) ++ [digitChar (n % 10)]

/-- Python `str(n)` for a natural number. -/
def natToStr (n : Nat) : Str := natToStrAux (n + 1) n

/-- The ASCII part of the regex class `[\s:]` (whitespace or colon). -/
def isSep (c : Char) : Bool :=
  c == ' ' || c == '\t' || c == '\n' || c == '\r' || c == '\x0b' || c == '\x0c' || c == ':'

/-- The regex class `\d` (ASCII digits). -/
def isDigitChar (c : Char) : Bool := '0' ≤ c && c ≤ '9'

/-- Python `int(s)` on a string of decimal digits. -/
def natOfDigits (ds : Str) : Nat := ds.foldl (fun a c => 10 * a + (c.toNat - ('0').toNat)) 0

/-- Does the head of the list satisfy `p` (false for the empty list)? -/
def headSat (p : Char → Bool) : Str → Bool
  | [] => false
  | c :: _ => p c

/-- Python `text.lower()` (character-wise). -/
def lowerStr (s : Str) : Str := s.map Char.toLower

/-- Is `pat` a leading segment of `s`? -/
def startsWith : Str → Str → Bool
  | [], _ => true
  | _ :: _, [] => false
  | p :: ps, c :: cs => p == c && startsWith ps cs

/-- Does `pat` occur contiguously anywhere inside `s`? -/
def occursIn (pat : Str) : Str → Bool
  | [] => startsWith pat []
  | c :: rest => startsWith pat (c :: rest) || occursIn pat rest

/-- The trigger alternation of the first closing pattern
`(?:close|closes|closed|fix|fixes|fixed|resolve|resolves|resolved)[\s:]+#(\d+)`,
in the regex's alternative order. -/
def kws1 : List Str :=
  [("close").toList, ("closes").toList, ("closed").toList,
   ("fix").toList, ("fixes").toList, ("fixed").toList,
   ("resolve").toList, ("resolves").toList, ("resolved").toList]

/-- The trigger alternation of the second closing pattern `(?:issue|issues)[\s:]+#(\d+)`. -/
def kws2 : List Str := [("issue").toList, ("issues").toList]

/-- Matching of the regex tail `[\s:]+#(\d+)` at the head of `s`: a non-empty
run of whitespace/colon, then `#`, then a maximal non-empty digit run.  On
success returns (number of consumed characters, captured number).  This is the
deterministic residue of the backtracking engine: `[\s:]+` can only stop in
front of `#`, and `(\d+)` is greedy with nothing after it. -/
def matchTail (s : Str) : Option (Nat × Nat) :=
  let seps := s.takeWhile isSep
  let rest := s.dropWhile isSep
  if seps = [] then none
  else
    match rest with
    | c :: after =>
      if c = '#' then
        let ds := after.takeWhile isDigitChar
        if ds = [] then none else some (seps.length + 1 + ds.length, natOfDigits ds)
      else none
    | [] => none

/-- Try the alternation `kws` at the head of `s`, in order, each followed by
the tail `[\s:]+#(\d+)`; the semantics of the regex alternation with
backtracking. -/
def tryPattern (kws : List Str) (s : Str) : Option (Nat × Nat) :=
  match kws with
  | [] => none
  | kw :: rest =>
    if startsWith kw s then
      match matchTail (s.drop kw.length) with
      | some (len, n) => some (kw.length + len, n)
      | none => tryPattern rest s
    else tryPattern rest s

/-- Python `re.findall` for one closing pattern: scan left to right, on a
match emit the captured number and resume after the match, otherwise advance
one character.  `fuel ≥ s.length` makes the fuel irrelevant. -/
def findallFrom (kws : List Str) : Nat → Str → List Nat
  | _, [] => []
  | 0, _ :: _ => []
  | fuel + 1, c :: rest =>
    match tryPattern kws (c :: rest) with
    | some (len, n) => n :: findallFrom kws fuel (List.drop (len - 1) rest)
    | none => findallFrom kws fuel rest

/-- `re.findall(pattern, s)` (captured issue numbers, in match order). -/
def findall (kws : List Str) (s : Str) : List Nat := findallFrom kws s.length s

/-- The reference extraction of `build_issue_solver_data` (lines 166-173):
both closing patterns applied to the lower-cased text, captured numbers
converted with `int` and appended in order. -/
def extract_references (text : Str) : List Nat :=
  findall kws1 (lowerStr text) ++ findall kws2 (lowerStr text)

/-- The scenario text of the spec. -/
def sampleText : Str := ("This change fixes #42 and relates to issue #7").toList

/-! ## Remote source model and per-item fetch wrappers -/

/-- A file of a pull request as served by the remote source. -/
structure RemoteFile where
  filename : Str
  additions : Nat
  deletions : Nat
  changes : Nat
  status : Str
  patch : Option Str
deriving DecidableEq

/-- A commit of a pull request; `author` is the author's login when the
commit has an attributable author (`commit.author and commit.author.login`). -/
structure RemoteCommit where
  message : Str
  author : Option Str
deriving DecidableEq

/-- An issue as served by the remote source. -/
structure RemoteIssue where
  body : Option Str
  comments : List Str
  state : Str
  created_at : Option Str
  closed_at : Option Str
  user : Option Str
  labels : List Str
deriving DecidableEq

/-- A pull request as served by the remote source (the parts the wrappers read). -/
structure RemotePull where
  files : List RemoteFile
  commits : List RemoteCommit
deriving DecidableEq

/-- The remote source collaborator: each operation either returns data or
fails (`.error` models the exception raised inside the `try` blocks). -/
structure Remote where
  getIssue : Nat → Except Str RemoteIssue
  getPull : Nat → Except Str RemotePull

/-- The record returned by `get_issue_details`. -/
structure IssueDetails where
  body : Str
  comments : Str
  state : Str
  created_at : Str
  closed_at : Str
  opened_by : Str
  labels : Str
deriving DecidableEq

/-- The all-empty-string default returned by `get_issue_details` on failure. -/
def emptyIssueDetails : IssueDetails :=
  { body := [], comments := [], state := [], created_at := [], closed_at := [],
    opened_by := [], labels := [] }

/-- `get_issue_details(repo, issue_number)` (lines 50-82): on success the
body (empty for `None`), the comments joined with `COMMENT_DELIMITER`, state,
iso timestamps (empty for `None`), opener login and the labels joined with
`", "`; on any failure the all-empty record. -/
def get_issue_details (repo : Remote) (issue_number : Nat) : IssueDetails :=
  match repo.getIssue issue_number with
  | .ok issue =>
    { body := issue.body.getD []
      comments := joinWith COMMENT_DELIMITER issue.comments
      state := issue.state
      created_at := issue.created_at.getD []
      closed_at := issue.closed_at.getD []
      opened_by := issue.user.getD []
      labels := joinWith ((", ").toList) issue.labels }
  | .error _ => emptyIssueDetails

/-- One entry of the list built by `fetch_pr_file_changes`. -/
structure FileChange where
  filename : Str
  additions : Nat
  deletions : Nat
  changes : Nat
  status : Str
  patch : Str
deriving DecidableEq

/-- `f.patch.replace("\n", PATCH_NEWLINE_DELIMITER)`: every newline replaced
by the literal token `|;|`. -/
def replaceNewlines : Str → Str
  | [] => []
  | c :: cs => if c = '\n' then PATCH_NEWLINE_DELIMITER ++ replaceNewlines cs else c :: replaceNewlines cs

/-- `fetch_pr_file_changes(repo, pr_number)` (lines 84-112): each file's
fields, the patch with newlines replaced (empty when the patch is missing);
`[]` on any failure. -/
def fetch_pr_file_changes (repo : Remote) (pr_number : Nat) : List FileChange :=
  match repo.getPull pr_number with
  | .ok pr =>
    pr.files.map (fun f =>
      { filename := f.filename
        additions := f.additions
        deletions := f.deletions
        changes := f.changes
        status := f.status
        patch := match f.patch with | some p => replaceNewlines p | none => [] })
  | .error _ => []

/-- `fetch_commit_messages(repo, pr_number)`: the commit messages joined with
`COMMIT_MSG_DELIMITER`; `""` on any failure. -/
def fetch_commit_messages (repo : Remote) (pr_number : Nat) : Str :=
  match repo.getPull pr_number with
  | .ok pr => joinWith COMMIT_MSG_DELIMITER (pr.commits.map (fun c => c.message))
  | .error _ => []

/-- Insert into a Python `set` modelled as a first-occurrence list. -/
def setInsert (s : Str) (l : List Str) : List Str := if s ∈ l then l else l ++ [s]

/-- `get_pr_contributors(repo, pr_number)` (lines 114-125): the deduplicated
author logins of the PR's commits (commits without an attributable author are
skipped); `[]` on any failure.  The Python `set` is modelled as a list in
first-insertion order. -/
def get_pr_contributors (repo : Remote) (pr_number : Nat) : List Str :=
  match repo.getPull pr_number with
  | .ok pr => pr.commits.foldl (fun acc c => match c.author with
      | some login => setInsert login acc
      | none => acc) []
  | .error _ => []

/-- The entry string of `format_file_changes`: `PR#<pr_number> - <filename>: <patch>`. -/
def formatEntry (pr_number : Nat) (change : FileChange) : Str :=
  ("PR#").toList ++ natToStr pr_number ++ (" - ").toList ++ change.filename
    ++ (": ").toList ++ change.patch

/-- `format_file_changes(pr_number, file_changes)` (lines 127-138): the
entries joined with `FILE_CHANGE_DELIMITER`. -/
def format_file_changes (pr_number : Nat) (file_changes : List FileChange) : Str :=
  joinWith FILE_CHANGE_DELIMITER (file_changes.map (formatEntry pr_number))

/-! ## Python dicts as insertion-ordered association lists -/

/-- `d.get(k)` / `d[k]` lookup. -/
def dictFind (k : Nat) : List (Nat × α) → Option α
  | [] => none
  | (k', v) :: rest => if k' = k then some v else dictFind k rest

/-- `k in d`. -/
def dictHasKey (k : Nat) : List (Nat × α) → Bool
  | [] => false
  | (k', _) :: rest => k' == k || dictHasKey k rest

/-- `d[k] = v`: replace in place if present, else append. -/
def dictSet (k : Nat) (v : α) : List (Nat × α) → List (Nat × α)
  | [] => [(k, v)]
  | (k', v') :: rest => if k' = k then (k, v) :: rest else (k', v') :: dictSet k v rest

/-- In-place update of the value at an existing key. -/
def dictModify (k : Nat) (f : α → α) : List (Nat × α) → List (Nat × α)
  | [] => []
  | (k', v) :: rest => if k' = k then (k', f v) :: rest else (k', v) :: dictModify k f rest

/-! ## Change-Set Scanner (`build_issue_solver_data`, step 1, lines 157-183) -/

/-- A closed pull request as iterated by `repo.get_pulls(state='closed', ...)`. -/
structure PR where
  number : Nat
  merged : Bool
  title : Str
  author : Str
  merged_at : Option Str
  merged_by : Option Str
  body : Option Str
deriving DecidableEq

/-- The `pr_info` record of the scan loop. -/
structure PRInfo where
  number : Nat
  title : Str
  author : Str
  merged_at : Option Str
  merged_by : Option Str
  referenced_issues : List Nat
deriving DecidableEq

/-- The `pr_info` built for one merged PR, including the inline reference
extraction guarded by `if pr.body:` (`None` and `""` are both falsy). -/
def mkPRInfo (pr : PR) : PRInfo :=
  { number := pr.number
    title := pr.title
    author := pr.author
    merged_at := pr.merged_at
    merged_by := pr.merged_by
    referenced_issues :=
      match pr.body with
      | some b => if b = [] then [] else extract_references b
      | none => [] }

/-- The scan loop: skip unmerged PRs without counting them, count each merged
PR, record it when it references at least one issue, and break as soon as
`processed_count >= max_prs` (checked after processing).  Returns the
`pr_issue_mapping` and the final `processed_count`. -/
def scanLoop : List PR → Nat → Nat → List (Nat × PRInfo) → List (Nat × PRInfo) × Nat
  | [], _, count, acc => (acc, count)
  | pr :: rest, maxPrs, count, acc =>
    if pr.merged = false then scanLoop rest maxPrs count acc
    else
      let info := mkPRInfo pr
      let acc' := if info.referenced_issues = [] then acc else dictSet pr.number info acc
      if maxPrs ≤ count + 1 then (acc', count + 1)
      else scanLoop rest maxPrs (count + 1) acc'

/-- Step 1 of `build_issue_solver_data`: the PR→issues mapping and the number
of change-sets classified as merged. -/
def buildPRIssueMapping (prs : List PR) (maxPrs : Nat) : List (Nat × PRInfo) × Nat :=
  scanLoop prs maxPrs 0 []

/-- How many PRs of the iteration are merged. -/
def countMerged (prs : List PR) : Nat := (prs.filter (fun p => p.merged)).length

/-! ## Graph Builder, step 2: inversion (lines 185-203) -/

/-- A linked-PR entry of an `IssueNode`.  The stub appended in step 2 carries
number/title/merge data; `file_changes` and `commit_messages` are filled in
by step 3 (empty until then). -/
structure LinkedPR where
  number : Nat
  title : Str
  merged_at : Option Str
  merged_by : Option Str
  file_changes : Str := []
  commit_messages : Str := []
deriving DecidableEq

/-- The per-issue record of `issue_solver_data`.  The Python `solvers` set is
modelled as a first-insertion-order list; enrichment fields that the code only
adds on a successful fetch (`labels`, `state`, ...) default to empty. -/
structure IssueData where
  issue_number : Nat
  title : Option Str := none
  linked_prs : List LinkedPR := []
  solvers : List Str := []
  file_changes : List Str := []
  commit_messages : Str := []
  labels : List Str := []
  state : Str := []
  created_at : Str := []
  closed_at : Str := []
  opened_by : Str := []
deriving DecidableEq

/-- The fresh node created on an issue's first reference. -/
def emptyIssueData (n : Nat) : IssueData := { issue_number := n }

/-- The LinkedPR stub appended for one reference occurrence. -/
def mkStub (pr_data : PRInfo) : LinkedPR :=
  { number := pr_data.number, title := pr_data.title,
    merged_at := pr_data.merged_at, merged_by := pr_data.merged_by }

/-- The body of the inner inversion loop for one occurrence of
`issue_number` in `pr_data["referenced_issues"]`: create the node if missing,
then append the stub to its `linked_prs`. -/
def addLinkedPR (pr_data : PRInfo) (issue_number : Nat) (m : List (Nat × IssueData)) :
    List (Nat × IssueData) :=
  let m' := if dictHasKey issue_number m then m else m ++ [(issue_number, emptyIssueData issue_number)]
  dictModify issue_number (fun d => { d with linked_prs := d.linked_prs ++ [mkStub pr_data] }) m'

/-- The inner loop over `pr_data["referenced_issues"]`. -/
def processRefs (pr_data : PRInfo) (refs : List Nat) (m : List (Nat × IssueData)) :
    List (Nat × IssueData) :=
  refs.foldl (fun acc i => addLinkedPR pr_data i acc) m

/-- Step 2 of `build_issue_solver_data`: invert the PR→issues mapping into
the issue-centric `issue_solver_data`. -/
def invertMapping (mapping : List (Nat × PRInfo)) : List (Nat × IssueData) :=
  mapping.foldl (fun m kv => processRefs kv.2 kv.2.referenced_issues m) []

/-! ## Graph Builder, step 3: commit-message accumulation (lines 230-236) -/

/-- The accumulation
`issue["commit_messages"] += (COMMIT_MSG_DELIMITER + commit_msgs) if commit_msgs else ""`
over the per-PR commit-message strings, starting from `""`. -/
def accumulateCommits (msgs : List Str) : Str :=
  msgs.foldl (fun acc m => acc ++ (if m = [] then [] else COMMIT_MSG_DELIMITER ++ m)) []

/-- The closed form of the accumulation: each block prefixed by the delimiter. -/
def delimBlocks (l : List Str) : Str := (l.map (fun s => COMMIT_MSG_DELIMITER ++ s)).flatten

/-! ## Row Flattener (`generate_csv_rows`, lines 246-276) -/

/-- Python `s.lstrip(COMMIT_MSG_DELIMITER)`: `lstrip` takes a SET of
characters, so this drops every leading character that occurs in `" || "`,
i.e. every leading space or `|`. -/
def lstripDelim (s : Str) : Str := s.dropWhile (fun c => List.elem c COMMIT_MSG_DELIMITER)

/-- The placeholder contributor for an issue with no solvers. -/
def unknownStr : Str := ("unknown").toList

/-- One CSV row (the fixed column schema). -/
structure Row where
  repo_name : Str
  contributor_id : Str
  issue_id : Nat
  issue_title : Option Str
  issue_body : Str
  issue_comments : Str
  issue_state : Str
  issue_created_at : Str
  issue_closed_at : Str
  opened_by : Str
  issue_labels : Str
  linked_pr_count : Nat
  modified_source_files : Str
  commit_messages : Str
deriving DecidableEq

/-- The rows generated for one issue of `issue_solver_data`: the issue
details are re-fetched once with `get_issue_details`, and one row is emitted
per solver (or a single `"unknown"` row when there are none).  Note which
fields read `issue_details` (body, comments) and which read the cached
`issue_data` (state, timestamps, ...), exactly as in the source. -/
def rowsForIssue (repo : Remote) (repo_name : Str) (issue_data : IssueData) : List Row :=
  let linked_pr_count := issue_data.linked_prs.length
  let modified_files := joinWith FILE_CHANGE_DELIMITER issue_data.file_changes
  let commit_messages := lstripDelim issue_data.commit_messages
  let solvers := if issue_data.solvers = [] then [unknownStr] else issue_data.solvers
  let issue_details := get_issue_details repo issue_data.issue_number
  solvers.map (fun solver =>
    { repo_name := repo_name
      contributor_id := solver
      issue_id := issue_data.issue_number
      issue_title := issue_data.title
      issue_body := issue_details.body
      issue_comments := issue_details.comments
      issue_state := issue_data.state
      issue_created_at := issue_data.created_at
      issue_closed_at := issue_data.closed_at
      opened_by := issue_data.opened_by
      issue_labels := if issue_data.labels = [] then [] else joinWith ((", ").toList) issue_data.labels
      linked_pr_count := linked_pr_count
      modified_source_files := modified_files
      commit_messages := commit_messages })

/-- `generate_csv_rows(issue_solver_data, repo, repo_name)`: the per-issue
row lists appended in iteration order. -/
def generate_csv_rows (issue_solver_data : List (Nat × IssueData)) (repo : Remote)
    (repo_name : Str) : List Row :=
  issue_solver_data.foldl (fun rows kv => rows ++ rowsForIssue repo repo_name kv.2) []

/-! ## Cache Layer: `json.dump` / `json.load` round trip (lines 291-304)

Python values of the kinds that occur in `issue_solver_data` at dump time,
as a (mutual) inductive.  `json.dump` followed by `json.load` preserves
`None`/ints/strings/bools/lists/dicts, except that every non-string dict key
is serialized with `str(...)`: integer keys come back as decimal strings. -/

/-- A Python dict key (the dicts here have int or str keys). -/
inductive PyKey where
  | int (n : Nat)
  | str (s : Str)
deriving DecidableEq

mutual
/-- A Python value of the kinds present in the cache artifact. -/
inductive PyVal where
  | pnull
  | pint (n : Nat)
  | pstr (s : Str)
  | pbool (b : Bool)
  | plist (xs : PyList)
  | pdict (es : PyDict)
/-- A Python list of such values. -/
inductive PyList where
  | nil
  | cons (x : PyVal) (xs : PyList)
/-- The entries of a Python dict of such values. -/
inductive PyDict where
  | nil
  | cons (k : PyKey) (v : PyVal) (rest : PyDict)
end

/-- `str(key)` conversion that `json.dump` applies to non-string dict keys. -/
def pyKeyRoundTrip : PyKey → PyKey
  | .int n => .str (natToStr n)
  | .str s => .str s

mutual
/-- `json.loads(json.dumps(v))`. -/
def pyRoundTrip : PyVal → PyVal
  | .pnull => .pnull
  | .pint n => .pint n
  | .pstr s => .pstr s
  | .pbool b => .pbool b
  | .plist xs => .plist (pyRoundTripList xs)
  | .pdict es => .pdict (pyRoundTripDict es)
/-- Round trip of a list value, element-wise. -/
def pyRoundTripList : PyList → PyList
  | .nil => .nil
  | .cons x xs => .cons (pyRoundTrip x) (pyRoundTripList xs)
/-- Round trip of dict entries: keys stringified, values recursed. -/
def pyRoundTripDict : PyDict → PyDict
  | .nil => .nil
  | .cons k v rest => .cons (pyKeyRoundTrip k) (pyRoundTrip v) (pyRoundTripDict rest)
end

/-- Encode an optional string (`None` → `null`). -/
def optStrToPy : Option Str → PyVal
  | none => .pnull
  | some s => .pstr s

/-- Encode a list of strings. -/
def strListToPy : List Str → PyList
  | [] => .nil
  | s :: rest => .cons (.pstr s) (strListToPy rest)

/-- Encode one `linked_prs` entry (string dict keys, as Python writes them). -/
def linkedPRToPy (pr : LinkedPR) : PyVal :=
  .pdict (.cons (PyKey.str (("number").toList)) (.pint pr.number)
    (.cons (PyKey.str (("title").toList)) (.pstr pr.title)
      (.cons (PyKey.str (("merged_at").toList)) (optStrToPy pr.merged_at)
        (.cons (PyKey.str (("merged_by").toList)) (optStrToPy pr.merged_by)
          (.cons (PyKey.str (("file_changes").toList)) (.pstr pr.file_changes)
            (.cons (PyKey.str (("commit_messages").toList)) (.pstr pr.commit_messages) .nil))))))

/-- Encode a list of linked PRs. -/
def linkedPRsToPy : List LinkedPR → PyList
  | [] => .nil
  | pr :: rest => .cons (linkedPRToPy pr) (linkedPRsToPy rest)

/-- Encode one issue node as the dict that `json.dump` receives (`solvers`
already finalized to a list by the end of `build_issue_solver_data`). -/
def issueNodeToPy (d : IssueData) : PyVal :=
  .pdict (.cons (PyKey.str (("issue_number").toList)) (.pint d.issue_number)
    (.cons (PyKey.str (("title").toList)) (optStrToPy d.title)
      (.cons (PyKey.str (("linked_prs").toList)) (.plist (linkedPRsToPy d.linked_prs))
        (.cons (PyKey.str (("solvers").toList)) (.plist (strListToPy d.solvers))
          (.cons (PyKey.str (("file_changes").toList)) (.plist (strListToPy d.file_changes))
            (.cons (PyKey.str (("commit_messages").toList)) (.pstr d.commit_messages)
              (.cons (PyKey.str (("labels").toList)) (.plist (strListToPy d.labels))
                (.cons (PyKey.str (("state").toList)) (.pstr d.state)
                  (.cons (PyKey.str (("created_at").toList)) (.pstr d.created_at)
                    (.cons (PyKey.str (("closed_at").toList)) (.pstr d.closed_at)
                      (.cons (PyKey.str (("opened_by").toList)) (.pstr d.opened_by) .nil)))))))))))

/-- The dict entries of the issue map as the code builds it: INTEGER keys
(`issue_solver_data[issue_number]` with `issue_number = int(match)`). -/
def issueMapEntriesToPy : List (Nat × IssueData) → PyDict
  | [] => .nil
  | (k, d) :: rest => .cons (PyKey.int k) (issueNodeToPy d) (issueMapEntriesToPy rest)

/-- The issue map as the Python value handed to `json.dump`. -/
def issueMapToPy (m : List (Nat × IssueData)) : PyVal := .pdict (issueMapEntriesToPy m)

/-- The issue map as it would be with string keys, which is what the
docstring of `build_issue_solver_data` promises ("mapping issue numbers (as
strings)"). -/
def issueMapEntriesToPyStr : List (Nat × IssueData) → PyDict
  | [] => .nil
  | (k, d) :: rest => .cons (PyKey.str (natToStr k)) (issueNodeToPy d) (issueMapEntriesToPyStr rest)

/-- The string-keyed issue map value. -/
def issueMapToPyStr (m : List (Nat × IssueData)) : PyVal := .pdict (issueMapEntriesToPyStr m)

/-! ## Concrete instances used by witnesses and counterexamples -/

/-- A remote on which every fetch fails. -/
def failRemote : Remote :=
  { getIssue := fun _ => .error (("boom").toList)
    getPull := fun _ => .error (("boom").toList) }

/-- A remote serving fresh issue data that disagrees with the cached node. -/
def freshIssue : RemoteIssue :=
  { body := some (("fb").toList), comments := [("fc").toList],
    state := ("open").toList, created_at := some (("f1").toList),
    closed_at := some (("f2").toList), user := some (("u").toList), labels := [] }

/-- A remote serving `freshIssue` for every issue number. -/
def freshRemote : Remote :=
  { getIssue := fun _ => .ok freshIssue
    getPull := fun _ => .error [] }

/-- A cached issue node whose state and timestamps differ from the fresh fetch. -/
def cachedIssue : IssueData :=
  { issue_number := 5, solvers := [("alice").toList],
    state := ("closed").toList, created_at := ("c1").toList, closed_at := ("c2").toList }

/-- A remote file with a newline in both filename and patch. -/
def newlineFile : RemoteFile :=
  { filename := ('a' :: '\n' :: 'b' :: []), additions := 1, deletions := 0, changes := 1,
    status := ("modified").toList, patch := some ('x' :: '\n' :: 'y' :: []) }

/-- A remote whose PR has a file with a newline in both filename and patch. -/
def newlineRemote : Remote :=
  { getIssue := fun _ => .error []
    getPull := fun _ => .ok { files := [newlineFile], commits := [] } }

/-- A remote file with a newline-free filename and a patch with a newline. -/
def plainFile : RemoteFile :=
  { filename := ('a' :: 'b' :: []), additions := 1, deletions := 0, changes := 1,
    status := ("modified").toList, patch := some ('x' :: '\n' :: 'y' :: []) }

/-- A remote whose PR has a newline-free filename and a patch with a newline. -/
def plainRemote : Remote :=
  { getIssue := fun _ => .error []
    getPull := fun _ => .ok { files := [plainFile], commits := [] } }

/-- The file change that `fetch_pr_file_changes plainRemote 1` yields. -/
def plainFileChange : FileChange :=
  { filename := ('a' :: 'b' :: []), additions := 1, deletions := 0, changes := 1,
    status := ("modified").toList, patch := ('x' :: '|' :: ';' :: '|' :: 'y' :: []) }

/-- A commit message starting with a delimiter character. -/
def pipeMsg : Str := ('|' :: 'a' :: [])

/-- A merged PR with no body. -/
def mergedPR (k : Nat) : PR :=
  { number := k, merged := true, title := [], author := [],
    merged_at := none, merged_by := none, body := none }

/-- An unmerged PR with no body. -/
def unmergedPR (k : Nat) : PR :=
  { number := k, merged := false, title := [], author := [],
    merged_at := none, merged_by := none, body := none }

/-- A scan input with three merged and two unmerged PRs. -/
def samplePRs : List PR := [unmergedPR 1, mergedPR 2, unmergedPR 3, mergedPR 4, mergedPR 5]

/-- A fully populated linked-PR entry. -/
def sampleLinked : LinkedPR :=
  { number := 7, title := ("pt").toList, merged_at := some (("ma").toList),
    merged_by := none, file_changes := ("fc").toList, commit_messages := ("cm").toList }

/-- A fully populated issue node, as dumped to the cache. -/
def sampleNode : IssueData :=
  { issue_number := 42, title := some (("t").toList),
    linked_prs := [sampleLinked],
    solvers := [("alice").toList], file_changes := [("fcs").toList],
    commit_messages := ("cms").toList, labels := [("bug").toList],
    state := ("closed").toList, created_at := ("ca").toList, closed_at := ("cl").toList,
    opened_by := ("op").toList }

/-- A PR info whose reference list mentions issue 5 twice and issue 9 once. -/
def dupInfo : PRInfo :=
  { number := 10, title := ("pt").toList, author := ("au").toList,
    merged_at := none, merged_by := none, referenced_issues := [5, 9, 5] }

/-- A second PR info, referencing issue 5 once. -/
def otherInfo : PRInfo :=
  { number := 11, title := ("qt").toList, author := ("bu").toList,
    merged_at := none, merged_by := none, referenced_issues := [5] }

/-- A PR→issues mapping with duplicate references to issue 5. -/
def dupMapping : List (Nat × PRInfo) := [(10, dupInfo), (11, otherInfo)]

/-- The one row flattened from `emptyIssueData 0` against `failRemote`. -/
def unknownRow : Row :=
  { repo_name := [], contributor_id := unknownStr, issue_id := 0, issue_title := none,
    issue_body := [], issue_comments := [], issue_state := [], issue_created_at := [],
    issue_closed_at := [], opened_by := [], issue_labels := [], linked_pr_count := 0,
    modified_source_files := [], commit_messages := [] }

/-! # Theorems -/

/-! ## Shared helper lemmas -/

/-- Folding list-append over a list equals the joined map. -/
theorem foldl_append_join (f : α → List β) : ∀ (l : List α) (init : List β),
    l.foldl (fun acc x => acc ++ f x) init = init ++ (l.map f).flatten := by
  intro l
  induction l with
  | nil => intro init; simp
  | cons x xs ih => intro init; simp [List.foldl_cons, ih, List.append_assoc]

/-- `getD` returns an element of the list or the default. -/
theorem getD_mem_or (l : List α) : ∀ (n : Nat) (d : α), l.getD n d ∈ l ∨ l.getD n d = d := by
  induction l with
  | nil => intro n d; right; cases n <;> rfl
  | cons a t ih =>
    intro n d
    cases n with
    | zero => left; simp [List.getD]
    | succ m =>
      have hred : (a :: t).getD (m + 1) d = t.getD m d := by simp [List.getD]
      rw [hred]
      rcases ih m d with h | h
      · left; exact List.mem_cons_of_mem a h
      · right; exact h

/-- Decimal digit characters are never a newline. -/
theorem digitChar_ne_newline (k : Nat) : digitChar k ≠ '\n' := by
  unfold digitChar
  rcases getD_mem_or digitChars k '*' with h | h
  · intro he; rw [he] at h; revert h; decide
  · rw [h]; decide

/-- The decimal printer emits no newline. -/
theorem newline_not_mem_natToStrAux : ∀ (fuel n : Nat), '\n' ∉ natToStrAux fuel n := by
  intro fuel
  induction fuel with
  | zero => intro n; simp [natToStrAux]
  | succ f ih =>
    intro n
    unfold natToStrAux
    by_cases h : n < 10
    · simp [h]
      exact fun he => digitChar_ne_newline n he.symm
    · simp [h, List.mem_append]
      refine ⟨ih _, fun he => digitChar_ne_newline (n % 10) he.symm⟩

/-- `str(n)` contains no newline. -/
theorem newline_not_mem_natToStr (n : Nat) : '\n' ∉ natToStr n :=
  newline_not_mem_natToStrAux (n + 1) n

/-- Replacing newlines leaves no raw newline behind. -/
theorem newline_not_mem_replaceNewlines : ∀ (s : Str), '\n' ∉ replaceNewlines s := by
  intro s
  induction s with
  | nil => simp [replaceNewlines]
  | cons c cs ih =>
    unfold replaceNewlines
    by_cases h : c = '\n'
    · simp [h, List.mem_append]
      refine ⟨by decide, ih⟩
    · simp [h, List.mem_cons]
      refine ⟨fun he => h he.symm, ih⟩

/-- `takeWhile`/`dropWhile` on an all-satisfying block followed by a
non-satisfying head. -/
theorem takeWhile_all_append (p : Char → Bool) : ∀ (x z : Str), x.all p = true →
    headSat p z = false → (x ++ z).takeWhile p = x ∧ (x ++ z).dropWhile p = z := by
  intro x
  induction x with
  | nil =>
    intro z _ hz
    cases z with
    | nil => exact ⟨rfl, rfl⟩
    | cons c rest =>
      simp [headSat] at hz
      simp [List.takeWhile_cons, List.dropWhile_cons, hz]
  | cons a t ih =>
    intro z hx hz
    simp [List.all_cons] at hx
    obtain ⟨ha, ht⟩ := hx
    have := ih z (by simpa using ht) hz
    simp [List.takeWhile_cons, List.dropWhile_cons, ha, this.1, this.2]

/-! ## C9: per-item fetch failures are swallowed with neutral defaults -/

/-- C9: when the remote fetch of an item fails, each per-item wrapper
returns its neutral default instead of propagating the exception: the
all-empty-string record for issue details, `[]` for file changes and
contributors, and `""` for commit messages. -/
theorem C9_fetch_failure_defaults (repo : Remote) (n : Nat) (e1 e2 : Str)
    (h1 : repo.getIssue n = .error e1) (h2 : repo.getPull n = .error e2) :
    get_issue_details repo n = emptyIssueDetails ∧
    get_issue_details repo n
      = { body := [], comments := [], state := [], created_at := [], closed_at := [],
          opened_by := [], labels := [] } ∧
    fetch_pr_file_changes repo n = [] ∧
    fetch_commit_messages repo n = [] ∧
    get_pr_contributors repo n = [] := by
  unfold get_issue_details fetch_pr_file_changes fetch_commit_messages get_pr_contributors
  rw [h1, h2]
  exact ⟨rfl, rfl, rfl, rfl, rfl⟩

/-- Witness for C9 at a remote whose fetches all fail. -/
theorem C9_witness :
    get_issue_details failRemote 1 = emptyIssueDetails ∧
    get_issue_details failRemote 1
      = { body := [], comments := [], state := [], created_at := [], closed_at := [],
          opened_by := [], labels := [] } ∧
    fetch_pr_file_changes failRemote 1 = [] ∧
    fetch_commit_messages failRemote 1 = [] ∧
    get_pr_contributors failRemote 1 = [] :=
  C9_fetch_failure_defaults failRemote 1 (("boom").toList) (("boom").toList) rfl rfl

/-! ## C2: one row per contributor, or one `"unknown"` row -/

/-- C2: the flattener emits exactly `max 1 |solvers|` rows for an issue,
with one row per contributor when there are solvers and a single row whose
contributor is the literal `"unknown"` otherwise; the full CSV generation is
the concatenation of the per-issue row lists. -/
theorem C2_rows_per_issue (repo : Remote) (repo_name : Str) (issue_data : IssueData) :
    (rowsForIssue repo repo_name issue_data).length = max 1 issue_data.solvers.length ∧
    (rowsForIssue repo repo_name issue_data).map (fun r => r.contributor_id)
      = (if issue_data.solvers = [] then [unknownStr] else issue_data.solvers) ∧
    ∀ (m : List (Nat × IssueData)),
      generate_csv_rows m repo repo_name
        = (m.map (fun kv => rowsForIssue repo repo_name kv.2)).flatten := by
  refine ⟨?_, ?_, ?_⟩
  · unfold rowsForIssue
    by_cases h : issue_data.solvers = []
    · simp [h]
    · have hp : 0 < issue_data.solvers.length := List.length_pos.mpr h
      simp [h]
      omega
  · unfold rowsForIssue
    by_cases h : issue_data.solvers = []
    · simp [h]
    · simp [h, List.map_map]
      exact List.map_id' _
  · intro m
    unfold generate_csv_rows
    simpa using foldl_append_join (fun kv => rowsForIssue repo repo_name kv.2) m []

/-! ## C5: which row fields come from the fresh fetch -/

/-- C5 counterexample: the claim says `issue_state`, `issue_created_at` and
`issue_closed_at` are taken from the fresh fetch; on this input the fresh
fetch returns state `"open"` and timestamps `"f1"`/`"f2"`, yet the emitted
row carries the cached `"closed"`/`"c1"`/`"c2"`. -/
theorem C5_counterexample :
    (rowsForIssue freshRemote [] cachedIssue).map (fun r => r.issue_state) = [("closed").toList] ∧
    (rowsForIssue freshRemote [] cachedIssue).map (fun r => r.issue_created_at) = [("c1").toList] ∧
    (rowsForIssue freshRemote [] cachedIssue).map (fun r => r.issue_closed_at) = [("c2").toList] ∧
    (get_issue_details freshRemote cachedIssue.issue_number).state = ("open").toList ∧
    (get_issue_details freshRemote cachedIssue.issue_number).created_at = ("f1").toList ∧
    (get_issue_details freshRemote cachedIssue.issue_number).closed_at = ("f2").toList ∧
    (("closed").toList : Str) ≠ ("open").toList := by decide

/-- C5 (amended): in every flattened row, `issue_body` and `issue_comments`
come from the fresh `get_issue_details` fetch, while `issue_state`,
`issue_created_at` and `issue_closed_at` come from the cached issue node. -/
theorem C5_row_field_sources (repo : Remote) (repo_name : Str) (d : IssueData) (r : Row)
    (hr : r ∈ rowsForIssue repo repo_name d) :
    r.issue_body = (get_issue_details repo d.issue_number).body ∧
    r.issue_comments = (get_issue_details repo d.issue_number).comments ∧
    r.issue_state = d.state ∧
    r.issue_created_at = d.created_at ∧
    r.issue_closed_at = d.closed_at := by
  unfold rowsForIssue at hr
  simp only [List.mem_map] at hr
  obtain ⟨s, _, hr⟩ := hr
  subst hr
  exact ⟨rfl, rfl, rfl, rfl, rfl⟩

/-- Witness for C5 at a concrete issue node and remote. -/
theorem C5_witness :
    unknownRow.issue_body = (get_issue_details failRemote (emptyIssueData 0).issue_number).body ∧
    unknownRow.issue_comments
      = (get_issue_details failRemote (emptyIssueData 0).issue_number).comments ∧
    unknownRow.issue_state = (emptyIssueData 0).state ∧
    unknownRow.issue_created_at = (emptyIssueData 0).created_at ∧
    unknownRow.issue_closed_at = (emptyIssueData 0).closed_at :=
  C5_row_field_sources failRemote [] (emptyIssueData 0) unknownRow (by decide)

/-! ## C6: stripping the leading commit-message delimiter artifact -/

/-- C6 counterexample: with a single per-PR commit-message block `"|a"`, the
accumulated text is `" || |a"`; removing exactly the leading `" || "` would
leave `"|a"`, but `lstrip(" || ")` strips the character set and returns
`"a"`, mangling the first commit message. -/
theorem C6_counterexample :
    accumulateCommits [pipeMsg] = COMMIT_MSG_DELIMITER ++ pipeMsg ∧
    lstripDelim (accumulateCommits [pipeMsg]) = ('a' :: []) ∧
    (('a' :: []) : Str) ≠ pipeMsg := by decide

/-- Helper: closed form of the commit-message accumulation. -/
theorem accumulate_eq_delimBlocks : ∀ (msgs : List Str) (acc : Str),
    msgs.foldl (fun a m => a ++ (if m = [] then [] else COMMIT_MSG_DELIMITER ++ m)) acc
      = acc ++ delimBlocks (msgs.filter (fun s => !(List.isEmpty s))) := by
  intro msgs
  induction msgs with
  | nil => intro acc; simp [delimBlocks]
  | cons m rest ih =>
    intro acc
    cases m with
    | nil => simp [List.foldl_cons, ih, List.isEmpty]
    | cons c cs =>
      simp [List.foldl_cons, ih, List.isEmpty, delimBlocks, List.append_assoc]

/-- C6 (amended): the flattener's `lstrip` removes exactly the single
leading delimiter artifact whenever the first non-empty commit-message block
does not itself begin with a space or `|`; in that case the first message
survives intact. -/
theorem C6_commit_strip_amended (msgs : List Str) (m : Str) (rest : List Str) (c : Char) (m2 : Str)
    (hf : msgs.filter (fun s => !(List.isEmpty s)) = m :: rest)
    (hm : m = c :: m2)
    (hc : List.elem c COMMIT_MSG_DELIMITER = false) :
    COMMIT_MSG_DELIMITER ++ lstripDelim (accumulateCommits msgs) = accumulateCommits msgs ∧
    lstripDelim (accumulateCommits msgs) = m ++ accumulateCommits rest := by
  have hacc : accumulateCommits msgs = delimBlocks (m :: rest) := by
    unfold accumulateCommits
    rw [accumulate_eq_delimBlocks, hf]
    simp
  have hblocks : delimBlocks (m :: rest) = COMMIT_MSG_DELIMITER ++ (m ++ delimBlocks rest) := by
    simp [delimBlocks, List.append_assoc]
  have hrest : accumulateCommits rest = delimBlocks rest := by
    unfold accumulateCommits
    rw [accumulate_eq_delimBlocks]
    have : rest.filter (fun s => !(List.isEmpty s)) = rest := by
      apply List.filter_eq_self.mpr
      intro a ha
      have : a ∈ msgs.filter (fun s => !(List.isEmpty s)) := by
        rw [hf]; exact List.mem_cons_of_mem m ha
      exact (List.mem_filter.mp this).2
    rw [this]
    simp
  have hstrip : lstripDelim (accumulateCommits msgs) = m ++ delimBlocks rest := by
    rw [hacc, hblocks]
    unfold lstripDelim
    have hall : COMMIT_MSG_DELIMITER.all (fun ch => List.elem ch COMMIT_MSG_DELIMITER) = true := by
      decide
    have hhead : headSat (fun ch => List.elem ch COMMIT_MSG_DELIMITER) (m ++ delimBlocks rest)
        = false := by
      rw [hm]
      simpa [headSat] using hc
    exact (takeWhile_all_append _ COMMIT_MSG_DELIMITER (m ++ delimBlocks rest) hall hhead).2
  constructor
  · rw [hstrip, hacc, hblocks]
  · rw [hstrip, hrest]

/-- Witness for C6 with the single commit-message block `"hi"`. -/
theorem C6_witness :
    COMMIT_MSG_DELIMITER ++ lstripDelim (accumulateCommits [("hi").toList])
      = accumulateCommits [("hi").toList] ∧
    lstripDelim (accumulateCommits [("hi").toList]) = ("hi").toList ++ accumulateCommits [] :=
  C6_commit_strip_amended [("hi").toList] (("hi").toList) [] 'h' ('i' :: [])
    (by decide) (by decide) (by decide)

/-! ## C10: file-change formatting and the newline sentinel -/

/-- C10 counterexample: the patch newlines are replaced by `"|;|"`, but a
newline inside the filename survives into the formatted file-change string,
so the formatted string is not newline-free as claimed. -/
theorem C10_counterexample :
    (fetch_pr_file_changes newlineRemote 1).map (fun fc => fc.patch)
      = [('x' :: '|' :: ';' :: '|' :: 'y' :: [])] ∧
    '\n' ∈ format_file_changes 1 (fetch_pr_file_changes newlineRemote 1) := by decide

/-- C10 (amended): every fetched file change carries a patch in which each
newline has been replaced by `"|;|"` (hence newline-free); the formatted
entry `PR#<id> - <filename>: <patch>` is newline-free provided the filename
is; and the entries are joined with `" || "`. -/
theorem C10_format_file_changes (repo : Remote) (n : Nat) (fc : FileChange)
    (hfc : fc ∈ fetch_pr_file_changes repo n) :
    '\n' ∉ fc.patch ∧
    ('\n' ∉ fc.filename → '\n' ∉ formatEntry n fc) ∧
    format_file_changes n (fetch_pr_file_changes repo n)
      = joinWith FILE_CHANGE_DELIMITER ((fetch_pr_file_changes repo n).map (formatEntry n)) := by
  have hpatch : '\n' ∉ fc.patch := by
    unfold fetch_pr_file_changes at hfc
    cases h : repo.getPull n with
    | error e => rw [h] at hfc; simp at hfc
    | ok pr =>
      rw [h] at hfc
      simp only [List.mem_map] at hfc
      obtain ⟨f, _, hflat⟩ := hfc
      subst hflat
      cases hp : f.patch with
      | some p => simp [hp]; exact newline_not_mem_replaceNewlines p
      | none => simp [hp]
  refine ⟨hpatch, ?_, rfl⟩
  intro hfn hmem
  unfold formatEntry at hmem
  simp only [List.mem_append] at hmem
  rcases hmem with ((((h1 | h2) | h3) | h4) | h5) | h6
  · revert h1; decide
  · exact newline_not_mem_natToStr n h2
  · revert h3; decide
  · exact hfn h4
  · revert h5; decide
  · exact hpatch h6

/-- Witness for C10 at a PR whose file has a clean filename and a patch
with a newline. -/
theorem C10_witness :
    '\n' ∉ plainFileChange.patch ∧
    ('\n' ∉ plainFileChange.filename → '\n' ∉ formatEntry 1 plainFileChange) ∧
    format_file_changes 1 (fetch_pr_file_changes plainRemote 1)
      = joinWith FILE_CHANGE_DELIMITER ((fetch_pr_file_changes plainRemote 1).map (formatEntry 1)) :=
  C10_format_file_changes plainRemote 1 plainFileChange (by decide)

/-! ## C1: the scan cap counts merged change-sets only -/

/-- `countMerged` over a cons. -/
theorem countMerged_cons (pr : PR) (rest : List PR) :
    countMerged (pr :: rest) = (if pr.merged then 1 else 0) + countMerged rest := by
  unfold countMerged
  rw [List.filter_cons]
  cases h : pr.merged <;> simp [h]
  omega

/-- Invariant of the scan loop: while the running count is below the cap,
the final count is the cap or the count of merged PRs, whichever is reached
first. -/
theorem scanLoop_count (prs : List PR) : ∀ (maxPrs count : Nat) (acc : List (Nat × PRInfo)),
    count < maxPrs →
    (scanLoop prs maxPrs count acc).2 = min maxPrs (count + countMerged prs) := by
  induction prs with
  | nil =>
    intro maxPrs count acc h
    simp [scanLoop, countMerged]
    omega
  | cons pr rest ih =>
    intro maxPrs count acc h
    rw [countMerged_cons]
    by_cases hm : pr.merged = false
    · simp [scanLoop, hm]
      rw [ih maxPrs count acc h]
    · have hm' : pr.merged = true := by revert hm; cases pr.merged <;> simp
      unfold scanLoop
      rw [if_neg (by simp [hm'])]
      simp only [hm', if_true]
      by_cases hle : maxPrs ≤ count + 1
      · rw [if_pos hle]
        simp
        omega
      · rw [if_neg hle]
        rw [ih maxPrs (count + 1) _ (by omega)]
        omega

/-- C1 counterexample: with cap `max_count = 0` and one merged change-set in
the iteration, the scanner still classifies one merged change-set (the cap
check runs only after a merged change-set has been processed), so it does not
stop after exactly `max_count` merged change-sets. -/
theorem C1_counterexample :
    countMerged [mergedPR 1] = 1 ∧
    (buildPRIssueMapping [mergedPR 1] 0).2 = 1 ∧
    (buildPRIssueMapping [mergedPR 1] 0).2 ≠ 0 := by decide

/-- C1 (amended): for every positive cap, the scanner classifies exactly
`min max_count (number of merged change-sets)` change-sets as merged — in
particular exactly `max_count` whenever at least `max_count` merged
change-sets are encountered — and unmerged change-sets never count against
the cap, no matter how many there are. -/
theorem C1_scan_cap (prs : List PR) (maxPrs : Nat) (h : 1 ≤ maxPrs) :
    (buildPRIssueMapping prs maxPrs).2 = min maxPrs (countMerged prs) := by
  unfold buildPRIssueMapping
  rw [scanLoop_count prs maxPrs 0 [] (by omega)]
  omega

/-- Witness for C1: a cap of 2 on a list with three merged and two unmerged
PRs classifies exactly 2. -/
theorem C1_witness :
    (buildPRIssueMapping samplePRs 2).2 = min 2 (countMerged samplePRs) :=
  C1_scan_cap samplePRs 2 (by decide)

/-! ## C7: the cache round trip stringifies the integer keys -/

/-- C7, evaluated at the failing input: the issue map is built with the
integer key `42`, but the JSON write/read round trip returns it with the
string key `"42"`; the keys are not reproduced.  (This contradicts the
docstring of `build_issue_solver_data`, which promises string keys.) -/
theorem C7_roundtrip_failing_input :
    issueMapToPy [(42, sampleNode)]
      = PyVal.pdict (.cons (PyKey.int 42) (issueNodeToPy sampleNode) .nil) ∧
    pyRoundTrip (issueMapToPy [(42, sampleNode)])
      = PyVal.pdict (.cons (PyKey.str ('4' :: '2' :: [])) (issueNodeToPy sampleNode) .nil) ∧
    pyKeyRoundTrip (PyKey.int 42) = PyKey.str ('4' :: '2' :: []) ∧
    PyKey.str ('4' :: '2' :: []) ≠ PyKey.int 42 :=
  ⟨rfl, rfl, rfl, by decide⟩

/-- Round trip preserves encoded string lists. -/
theorem strList_roundtrip (l : List Str) : pyRoundTripList (strListToPy l) = strListToPy l := by
  induction l with
  | nil => rfl
  | cons s rest ih => simp [strListToPy, pyRoundTripList, pyRoundTrip, ih]

/-- Round trip preserves encoded optional strings. -/
theorem optStr_roundtrip (o : Option Str) : pyRoundTrip (optStrToPy o) = optStrToPy o := by
  cases o <;> rfl

/-- Round trip preserves an encoded linked-PR entry (all its keys are strings). -/
theorem linkedPR_roundtrip (pr : LinkedPR) : pyRoundTrip (linkedPRToPy pr) = linkedPRToPy pr := by
  simp [linkedPRToPy, pyRoundTrip, pyRoundTripDict, pyKeyRoundTrip, optStr_roundtrip]

/-- Round trip preserves an encoded linked-PR list. -/
theorem linkedPRs_roundtrip (l : List LinkedPR) :
    pyRoundTripList (linkedPRsToPy l) = linkedPRsToPy l := by
  induction l with
  | nil => rfl
  | cons pr rest ih => simp [linkedPRsToPy, pyRoundTripList, linkedPR_roundtrip, ih]

/-- Round trip preserves an encoded issue node (all its keys are strings). -/
theorem issueNode_roundtrip (d : IssueData) :
    pyRoundTrip (issueNodeToPy d) = issueNodeToPy d := by
  simp [issueNodeToPy, pyRoundTrip, pyRoundTripDict, pyRoundTripList, pyKeyRoundTrip,
    optStr_roundtrip, strList_roundtrip, linkedPRs_roundtrip]

/-- With the string keys that the docstring of `build_issue_solver_data`
promises, the cache round trip would reproduce the issue map exactly. -/
theorem docstring_string_keys_roundtrip (m : List (Nat × IssueData)) :
    pyRoundTrip (issueMapToPyStr m) = issueMapToPyStr m := by
  unfold issueMapToPyStr
  have : ∀ (l : List (Nat × IssueData)),
      pyRoundTripDict (issueMapEntriesToPyStr l) = issueMapEntriesToPyStr l := by
    intro l
    induction l with
    | nil => rfl
    | cons kv rest ih =>
      simp [issueMapEntriesToPyStr, pyRoundTripDict, pyKeyRoundTrip, issueNode_roundtrip, ih]
  simp [pyRoundTrip, this]

/-! ## C3/C4: regex-matcher lemmas -/

/-- A pattern is a leading segment of itself followed by anything. -/
theorem startsWith_append : ∀ (x z : Str), startsWith x (x ++ z) = true := by
  intro x z
  induction x with
  | nil => rfl
  | cons a t ih => simp [startsWith, ih]

/-- A successful `startsWith` decomposes the string. -/
theorem startsWith_decomp : ∀ (x s : Str), startsWith x s = true → s = x ++ s.drop x.length := by
  intro x
  induction x with
  | nil => intro s _; simp
  | cons a t ih =>
    intro s h
    cases s with
    | nil => simp [startsWith] at h
    | cons c cs =>
      simp [startsWith] at h
      obtain ⟨hac, ht⟩ := h
      have hrec := ih cs ht
      simp [hac, List.drop]
      exact hrec

/-- Every element of a `takeWhile` block satisfies the predicate. -/
theorem all_takeWhile (p : Char → Bool) : ∀ (l : Str), (l.takeWhile p).all p = true := by
  intro l
  induction l with
  | nil => rfl
  | cons a t ih =>
    rw [List.takeWhile_cons]
    by_cases h : p a
    · simp [h, ih]
    · simp [h]

/-- Dropping at most the first block of an append stays inside the block. -/
theorem drop_append_le : ∀ (k : Nat) (x y : List α), k ≤ x.length →
    (x ++ y).drop k = x.drop k ++ y := by
  intro k
  induction k with
  | zero => intro x y _; simp
  | succ m ih =>
    intro x y h
    cases x with
    | nil => simp at h
    | cons a t => simpa [List.drop] using ih t y (by simpa using h)

/-- `getD` inside the first block of an append. -/
theorem getD_append_lt : ∀ (x y : List α) (i : Nat) (d : α), i < x.length →
    (x ++ y).getD i d = x.getD i d := by
  intro x
  induction x with
  | nil => intro y i d h; simp at h
  | cons a t ih =>
    intro y i d h
    cases i with
    | zero => rfl
    | succ m =>
      have h1 : ((a :: t) ++ y).getD (m + 1) d = (t ++ y).getD m d := by simp [List.getD]
      have h2 : (a :: t).getD (m + 1) d = t.getD m d := by simp [List.getD]
      rw [h1, h2]
      exact ih y m d (by simpa using h)

/-- `getD` beyond the first block of an append. -/
theorem getD_append_ge : ∀ (x y : List α) (i : Nat) (d : α), x.length ≤ i →
    (x ++ y).getD i d = y.getD (i - x.length) d := by
  intro x
  induction x with
  | nil => intro y i d _; simp
  | cons a t ih =>
    intro y i d h
    cases i with
    | zero => simp at h
    | succ m =>
      have h1 : ((a :: t) ++ y).getD (m + 1) d = (t ++ y).getD m d := by simp [List.getD]
      rw [h1, ih y m d (by simpa using h)]
      simp [List.length_cons]

/-- The regex tail succeeds on a separator run followed by `#` and digits. -/
theorem matchTail_sep_digits (S ds B : Str) (hS : S ≠ []) (hSsep : S.all isSep = true)
    (hds : ds ≠ []) (hdsd : ds.all isDigitChar = true)
    (hB : headSat isDigitChar B = false) :
    matchTail (S ++ '#' :: ds ++ B) = some (S.length + 1 + ds.length, natOfDigits ds) := by
  have hsep : S ++ '#' :: ds ++ B = S ++ ('#' :: (ds ++ B)) := by simp
  have h1 := takeWhile_all_append isSep S ('#' :: (ds ++ B)) hSsep (by simp [headSat, isSep])
  have h2 := takeWhile_all_append isDigitChar ds B hdsd hB
  rw [hsep]
  simp only [matchTail]
  rw [h1.1, h1.2, if_neg hS]
  simp only [h2.1, h2.2]
  rw [if_neg hds]
  simp

/-- The whole first closing pattern succeeds right at a `fixes` trigger. -/
theorem tryPattern_fixes (S ds B : Str) (hS : S ≠ []) (hSsep : S.all isSep = true)
    (hds : ds ≠ []) (hdsd : ds.all isDigitChar = true)
    (hB : headSat isDigitChar B = false) :
    tryPattern kws1 (('f' :: 'i' :: 'x' :: 'e' :: 's' :: []) ++ S ++ '#' :: ds ++ B)
      = some (5 + (S.length + 1 + ds.length), natOfDigits ds) := by
  have hmt := matchTail_sep_digits S ds B hS hSsep hds hdsd hB
  -- `close`, `closes`, `closed` fail on the head, `fix` fails on the tail:
  -- all of that is definitional, leaving the `fixes` alternative.
  have hskip : tryPattern kws1 (('f' :: 'i' :: 'x' :: 'e' :: 's' :: []) ++ S ++ '#' :: ds ++ B)
      = (match matchTail (S ++ '#' :: ds ++ B) with
         | some (len, n) => some (5 + len, n)
         | none => tryPattern
             [("fixed").toList, ("resolve").toList, ("resolves").toList, ("resolved").toList]
             (('f' :: 'i' :: 'x' :: 'e' :: 's' :: []) ++ S ++ '#' :: ds ++ B)) := rfl
  rw [hskip, hmt]

/-- A successful tail match decomposes its input. -/
theorem matchTail_shape (t : Str) (len n : Nat) (h : matchTail t = some (len, n)) :
    ∃ seps ds t2, t = seps ++ '#' :: ds ++ t2 ∧ seps ≠ [] ∧ seps.all isSep = true ∧
      ds ≠ [] ∧ ds.all isDigitChar = true ∧ len = seps.length + 1 + ds.length ∧
      n = natOfDigits ds := by
  simp only [matchTail] at h
  by_cases hs : t.takeWhile isSep = []
  · rw [if_pos hs] at h; exact absurd h (by simp)
  · rw [if_neg hs] at h
    cases hd : t.dropWhile isSep with
    | nil => rw [hd] at h; simp at h
    | cons c after =>
      rw [hd] at h
      dsimp only at h
      by_cases hc : c = '#'
      · rw [if_pos hc] at h
        by_cases he : after.takeWhile isDigitChar = []
        · rw [if_pos he] at h; exact absurd h (by simp)
        · rw [if_neg he] at h
          simp only [Option.some.injEq, Prod.mk.injEq] at h
          obtain ⟨hlen, hn⟩ := h
          refine ⟨t.takeWhile isSep, after.takeWhile isDigitChar, after.dropWhile isDigitChar,
            ?_, hs, all_takeWhile isSep t, he, all_takeWhile isDigitChar after,
            hlen.symm, hn.symm⟩
          conv_lhs => rw [← List.takeWhile_append_dropWhile isSep t]
          rw [hd, hc, ← List.takeWhile_append_dropWhile isDigitChar after]
          simp
      · rw [if_neg hc] at h; exact absurd h (by simp)

/-- A successful alternation match decomposes its input: some listed keyword,
then a separator run, `#`, and a maximal digit run. -/
theorem tryPattern_shape : ∀ (kws : List Str) (s : Str) (len n : Nat),
    tryPattern kws s = some (len, n) →
    ∃ kw seps ds t2, kw ∈ kws ∧ s = kw ++ (seps ++ '#' :: ds ++ t2) ∧ seps ≠ [] ∧
      seps.all isSep = true ∧ ds ≠ [] ∧ ds.all isDigitChar = true ∧
      len = kw.length + (seps.length + 1 + ds.length) ∧ n = natOfDigits ds := by
  intro kws
  induction kws with
  | nil => intro s len n h; simp [tryPattern] at h
  | cons kw rest ih =>
    intro s len n h
    unfold tryPattern at h
    by_cases hsw : startsWith kw s = true
    · rw [if_pos hsw] at h
      cases hmt : matchTail (s.drop kw.length) with
      | some p =>
        rw [hmt] at h
        obtain ⟨l2, n2⟩ := p
        dsimp only at h
        simp only [Option.some.injEq, Prod.mk.injEq] at h
        obtain ⟨hlen, hn⟩ := h
        obtain ⟨seps, ds, t2, hts, hsne, hsall, hdne, hdall, hl2, hn2⟩ :=
          matchTail_shape _ _ _ hmt
        refine ⟨kw, seps, ds, t2, List.mem_cons_self kw rest, ?_, hsne, hsall, hdne, hdall,
          ?_, ?_⟩
        · conv_lhs => rw [startsWith_decomp kw s hsw]
          rw [hts]
        · omega
        · rw [← hn, hn2]
      | none =>
        rw [hmt] at h
        obtain ⟨kw2, seps, ds, t2, hkw2, hrest⟩ := ih s len n h
        exact ⟨kw2, seps, ds, t2, List.mem_cons_of_mem kw hkw2, hrest⟩
    · rw [if_neg hsw] at h
      obtain ⟨kw2, seps, ds, t2, hkw2, hrest⟩ := ih s len n h
      exact ⟨kw2, seps, ds, t2, List.mem_cons_of_mem kw hkw2, hrest⟩

/-- Keyword-tail fact: no trigger keyword of the first pattern has an `f`
anywhere after its first character. -/
theorem kws1_tails_no_f : kws1.all (fun k => (k.drop 1).all (fun c => !(c == 'f'))) = true := by
  decide

/-- No match of the first closing pattern that starts strictly before an `f`
can reach that `f`: the consumed region is a keyword (whose tail has no `f`)
followed by separator/`#`/digit characters (none of which is `f`). -/
theorem tryPattern_no_f_overlap (A Y : Str) (len n : Nat) (hA : A ≠ [])
    (h : tryPattern kws1 (A ++ 'f' :: Y) = some (len, n)) : len ≤ A.length := by
  by_contra hgt
  push_neg at hgt
  obtain ⟨kw, seps, ds, t2, hkw, hs, hsne, hsall, hdne, hdall, hlen, _⟩ :=
    tryPattern_shape kws1 _ len n h
  have hApos : 0 < A.length := List.length_pos.mpr hA
  have hf1 : (A ++ 'f' :: Y).getD A.length ' ' = 'f' := by
    rw [getD_append_ge A ('f' :: Y) A.length ' ' (le_refl _)]
    simp
  rw [hs] at hf1
  by_cases hik : A.length < kw.length
  · rw [getD_append_lt kw (seps ++ '#' :: ds ++ t2) A.length ' ' hik] at hf1
    cases kw with
    | nil => simp at hik
    | cons k0 kt =>
      obtain ⟨j, hj⟩ : ∃ j, A.length = j + 1 := ⟨A.length - 1, by omega⟩
      rw [hj] at hf1 hik
      have hred : (k0 :: kt).getD (j + 1) ' ' = kt.getD j ' ' := by simp [List.getD]
      rw [hred] at hf1
      have htail : kt.all (fun c => !(c == 'f')) = true := by
        have := List.all_eq_true.mp kws1_tails_no_f (k0 :: kt) hkw
        simpa using this
      rcases getD_mem_or kt j ' ' with hmem | hdef
      · rw [hf1] at hmem
        have := List.all_eq_true.mp htail 'f' hmem
        simp at this
      · rw [hf1] at hdef
        exact absurd hdef (by decide)
  · push_neg at hik
    rw [getD_append_ge kw (seps ++ '#' :: ds ++ t2) A.length ' ' hik] at hf1
    have hjlt : A.length - kw.length < (seps ++ '#' :: ds).length := by
      simp [List.length_append, List.length_cons]
      omega
    rw [getD_append_lt (seps ++ '#' :: ds) t2 (A.length - kw.length) ' ' hjlt] at hf1
    by_cases hjs : A.length - kw.length < seps.length
    · rw [getD_append_lt seps ('#' :: ds) (A.length - kw.length) ' ' hjs] at hf1
      rcases getD_mem_or seps (A.length - kw.length) ' ' with hmem | hdef
      · rw [hf1] at hmem
        have := List.all_eq_true.mp hsall 'f' hmem
        exact absurd this (by decide)
      · rw [hf1] at hdef
        exact absurd hdef (by decide)
    · push_neg at hjs
      rw [getD_append_ge seps ('#' :: ds) (A.length - kw.length) ' ' hjs] at hf1
      cases hcase : A.length - kw.length - seps.length with
      | zero =>
        rw [hcase] at hf1
        have hzero : ('#' :: ds).getD 0 ' ' = '#' := by simp [List.getD]
        rw [hzero] at hf1
        exact absurd hf1 (by decide)
      | succ j3 =>
        rw [hcase] at hf1
        have hred : ('#' :: ds).getD (j3 + 1) ' ' = ds.getD j3 ' ' := by simp [List.getD]
        rw [hred] at hf1
        rcases getD_mem_or ds j3 ' ' with hmem | hdef
        · rw [hf1] at hmem
          have := List.all_eq_true.mp hdall 'f' hmem
          exact absurd this (by decide)
        · rw [hf1] at hdef
          exact absurd hdef (by decide)

/-- Scan-step equation: no match at this position. -/
theorem findallFrom_cons_none (kws : List Str) (fuel : Nat) (c : Char) (rest : Str)
    (h : tryPattern kws (c :: rest) = none) :
    findallFrom kws (fuel + 1) (c :: rest) = findallFrom kws fuel rest := by
  simp [findallFrom, h]

/-- Scan-step equation: a match at this position. -/
theorem findallFrom_cons_some (kws : List Str) (fuel : Nat) (c : Char) (rest : Str)
    (len n : Nat) (h : tryPattern kws (c :: rest) = some (len, n)) :
    findallFrom kws (fuel + 1) (c :: rest)
      = n :: findallFrom kws fuel (List.drop (len - 1) rest) := by
  simp [findallFrom, h]

/-- Main scan lemma: when the text decomposes around a `fixes` trigger whose
separator and (maximal) digit runs are well-formed, the scan of the first
closing pattern reports the referenced number. -/
theorem findallFrom_fixes : ∀ (fuel : Nat) (A S ds B : Str),
    (A ++ ('f' :: 'i' :: 'x' :: 'e' :: 's' :: []) ++ S ++ '#' :: ds ++ B).length ≤ fuel →
    S ≠ [] → S.all isSep = true → ds ≠ [] → ds.all isDigitChar = true →
    headSat isDigitChar B = false →
    natOfDigits ds ∈
      findallFrom kws1 fuel (A ++ ('f' :: 'i' :: 'x' :: 'e' :: 's' :: []) ++ S ++ '#' :: ds ++ B) := by
  intro fuel
  induction fuel with
  | zero =>
    intro A S ds B hlen _ _ _ _ _
    exfalso
    simp [List.length_append] at hlen
  | succ f ih =>
    intro A S ds B hlen hS hSsep hds hdsd hB
    cases A with
    | nil =>
      have htp := tryPattern_fixes S ds B hS hSsep hds hdsd hB
      have htp2 : tryPattern kws1
          ('f' :: ('i' :: 'x' :: 'e' :: 's' :: (S ++ '#' :: ds ++ B)))
          = some (5 + (S.length + 1 + ds.length), natOfDigits ds) := htp
      have hform : (([] : Str) ++ ('f' :: 'i' :: 'x' :: 'e' :: 's' :: []) ++ S ++ '#' :: ds ++ B)
          = 'f' :: ('i' :: 'x' :: 'e' :: 's' :: (S ++ '#' :: ds ++ B)) := by simp
      rw [hform, findallFrom_cons_some kws1 f 'f' _ _ _ htp2]
      exact List.mem_cons_self _ _
    | cons a A2 =>
      have hform : ((a :: A2) ++ ('f' :: 'i' :: 'x' :: 'e' :: 's' :: []) ++ S ++ '#' :: ds ++ B)
          = a :: (A2 ++ ('f' :: 'i' :: 'x' :: 'e' :: 's' :: []) ++ S ++ '#' :: ds ++ B) := by
        simp
      rw [hform]
      cases htp : tryPattern kws1
          (a :: (A2 ++ ('f' :: 'i' :: 'x' :: 'e' :: 's' :: []) ++ S ++ '#' :: ds ++ B)) with
      | none =>
        rw [findallFrom_cons_none kws1 f a _ htp]
        apply ih A2 S ds B ?_ hS hSsep hds hdsd hB
        rw [hform] at hlen
        simpa using Nat.le_of_succ_le_succ hlen
      | some p =>
        obtain ⟨len, n⟩ := p
        rw [findallFrom_cons_some kws1 f a _ len n htp]
        have heq : a :: (A2 ++ ('f' :: 'i' :: 'x' :: 'e' :: 's' :: []) ++ S ++ '#' :: ds ++ B)
            = (a :: A2) ++ 'f' :: ('i' :: 'x' :: 'e' :: 's' :: (S ++ '#' :: ds ++ B)) := by
          simp
        rw [heq] at htp
        have hb := tryPattern_no_f_overlap (a :: A2)
          ('i' :: 'x' :: 'e' :: 's' :: (S ++ '#' :: ds ++ B)) len n (by simp) htp
        have hb2 : len - 1 ≤ A2.length := by
          simp [List.length_cons] at hb
          omega
        have hdrop : List.drop (len - 1)
            (A2 ++ ('f' :: 'i' :: 'x' :: 'e' :: 's' :: []) ++ S ++ '#' :: ds ++ B)
            = (List.drop (len - 1) A2) ++ ('f' :: 'i' :: 'x' :: 'e' :: 's' :: []) ++ S
              ++ '#' :: ds ++ B := by
          rw [drop_append_le (len - 1)
            (A2 ++ ('f' :: 'i' :: 'x' :: 'e' :: 's' :: []) ++ S ++ '#' :: ds) B
            (by simp [List.length_append]; omega)]
          rw [drop_append_le (len - 1)
            (A2 ++ ('f' :: 'i' :: 'x' :: 'e' :: 's' :: []) ++ S) ('#' :: ds)
            (by simp [List.length_append]; omega)]
          rw [drop_append_le (len - 1)
            (A2 ++ ('f' :: 'i' :: 'x' :: 'e' :: 's' :: [])) S
            (by simp [List.length_append]; omega)]
          rw [drop_append_le (len - 1) A2 ('f' :: 'i' :: 'x' :: 'e' :: 's' :: []) hb2]
        rw [hdrop]
        apply List.mem_cons_of_mem
        apply ih (List.drop (len - 1) A2) S ds B ?_ hS hSsep hds hdsd hB
        rw [hform] at hlen
        have hlen2 := Nat.le_of_succ_le_succ hlen
        simp [List.length_append] at hlen2 ⊢
        have : (List.drop (len - 1) A2).length ≤ A2.length := by
          rw [List.length_drop]
          omega
        omega

/-- C3: every text whose lower-casing contains a `fixes` trigger phrase —
`fixes`, then whitespace/colons, then `#` and the (maximal) digits of `N` —
yields `N` among the extracted references; and the spec's scenario text
yields exactly 42 and 7, in that order. -/
theorem C3_fixes_reference (T A S ds B : Str)
    (hlow : lowerStr T = A ++ ("fixes").toList ++ S ++ '#' :: ds ++ B)
    (hS : S ≠ []) (hSsep : S.all isSep = true)
    (hds : ds ≠ []) (hdsd : ds.all isDigitChar = true)
    (hB : headSat isDigitChar B = false) :
    natOfDigits ds ∈ extract_references T ∧
    extract_references sampleText = [42, 7] := by
  constructor
  · unfold extract_references findall
    rw [hlow]
    exact List.mem_append_left _
      (findallFrom_fixes _ A S ds B (le_refl _) hS hSsep hds hdsd hB)
  · decide

/-- Witness for C3 on the text `"Fixes #42"`. -/
theorem C3_witness :
    natOfDigits ('4' :: '2' :: []) ∈ extract_references (("Fixes #42").toList) ∧
    extract_references sampleText = [42, 7] :=
  C3_fixes_reference (("Fixes #42").toList) [] (' ' :: []) ('4' :: '2' :: []) []
    (by decide) (by decide) (by decide) (by decide) (by decide) (by decide)

/-- A non-empty scan result exhibits a trigger keyword inside the text. -/
theorem findallFrom_ne_nil (kws : List Str) : ∀ (fuel : Nat) (s : Str),
    findallFrom kws fuel s ≠ [] → ∃ kw ∈ kws, occursIn kw s = true := by
  intro fuel
  induction fuel with
  | zero =>
    intro s h
    cases s with
    | nil => simp [findallFrom] at h
    | cons c rest => simp [findallFrom] at h
  | succ f ih =>
    intro s h
    cases s with
    | nil => simp [findallFrom] at h
    | cons c rest =>
      cases htp : tryPattern kws (c :: rest) with
      | some p =>
        obtain ⟨kw, seps, ds, t2, hkw, hs, _⟩ :=
          tryPattern_shape kws (c :: rest) p.1 p.2 (by rw [htp])
        refine ⟨kw, hkw, ?_⟩
        have hst : startsWith kw (c :: rest) = true := by
          rw [hs]; exact startsWith_append kw _
        simp [occursIn, hst]
      | none =>
        rw [findallFrom_cons_none kws f c rest htp] at h
        obtain ⟨kw, hkw, hocc⟩ := ih rest h
        exact ⟨kw, hkw, by simp [occursIn, hocc]⟩

/-- C4: a text in which no trigger keyword of either closing pattern occurs
(in the lower-cased text) yields no extracted references. -/
theorem C4_no_trigger_no_refs (T : Str)
    (h : (kws1 ++ kws2).all (fun kw => !(occursIn kw (lowerStr T))) = true) :
    extract_references T = [] := by
  unfold extract_references findall
  have h1 : findallFrom kws1 (lowerStr T).length (lowerStr T) = [] := by
    by_contra hne
    obtain ⟨kw, hkw, hocc⟩ := findallFrom_ne_nil kws1 _ _ hne
    have := List.all_eq_true.mp h kw (List.mem_append_left _ hkw)
    rw [hocc] at this
    simp at this
  have h2 : findallFrom kws2 (lowerStr T).length (lowerStr T) = [] := by
    by_contra hne
    obtain ⟨kw, hkw, hocc⟩ := findallFrom_ne_nil kws2 _ _ hne
    have := List.all_eq_true.mp h kw (List.mem_append_right _ hkw)
    rw [hocc] at this
    simp at this
  rw [h1, h2]
  rfl

/-- Witness for C4 on the text `"hello world"`. -/
theorem C4_witness : extract_references (("hello world").toList) = [] :=
  C4_no_trigger_no_refs (("hello world").toList) (by decide)

/-! ## C8: dict lemmas for the issue-centric inversion -/

/-- Lookup after an in-place modification at the same key. -/
theorem dictFind_modify_self (k : Nat) (f : α → α) : ∀ (m : List (Nat × α)),
    dictFind k (dictModify k f m) = (dictFind k m).map f := by
  intro m
  induction m with
  | nil => rfl
  | cons kv rest ih =>
    obtain ⟨k2, v⟩ := kv
    by_cases h : k2 = k
    · simp [dictModify, dictFind, h]
    · simp [dictModify, dictFind, h, ih]

/-- Lookup of another key after an in-place modification. -/
theorem dictFind_modify_ne (k k2 : Nat) (hne : k2 ≠ k) (f : α → α) : ∀ (m : List (Nat × α)),
    dictFind k2 (dictModify k f m) = dictFind k2 m := by
  intro m
  induction m with
  | nil => rfl
  | cons kv rest ih =>
    obtain ⟨k3, v⟩ := kv
    by_cases h : k3 = k
    · have hkk2 : ¬(k = k2) := fun he => hne he.symm
      simp [dictModify, dictFind, h, hkk2]
    · by_cases h2 : k3 = k2
      · simp [dictModify, dictFind, h2, hne]
      · simp [dictModify, dictFind, h, h2, ih]

/-- Lookup over an append of dicts. -/
theorem dictFind_append (k : Nat) : ∀ (m1 m2 : List (Nat × α)),
    dictFind k (m1 ++ m2)
      = match dictFind k m1 with | some v => some v | none => dictFind k m2 := by
  intro m1 m2
  induction m1 with
  | nil => rfl
  | cons kv rest ih =>
    obtain ⟨k2, v⟩ := kv
    by_cases h : k2 = k
    · simp [dictFind, h]
    · simp [dictFind, h, ih]

/-- `k in d` agrees with lookup success. -/
theorem dictHasKey_eq_isSome (k : Nat) : ∀ (m : List (Nat × α)),
    dictHasKey k m = (dictFind k m).isSome := by
  intro m
  induction m with
  | nil => rfl
  | cons kv rest ih =>
    obtain ⟨k2, v⟩ := kv
    by_cases h : k2 = k
    · simp [dictHasKey, dictFind, h]
    · simp [dictHasKey, dictFind, h, ih]

/-- Failed lookup means the key is absent. -/
theorem dictFind_none_iff (k : Nat) : ∀ (m : List (Nat × α)),
    dictFind k m = none ↔ k ∉ m.map Prod.fst := by
  intro m
  induction m with
  | nil => simp [dictFind]
  | cons kv rest ih =>
    obtain ⟨k2, v⟩ := kv
    by_cases h : k2 = k
    · simp [dictFind, h]
    · have hkk : ¬(k = k2) := fun he => h he.symm
      simp [dictFind, h, ih, hkk]

/-- A successful lookup means the key is present. -/
theorem mem_keys_of_find_some (k : Nat) (m : List (Nat × α)) (d : α)
    (h : dictFind k m = some d) : k ∈ m.map Prod.fst := by
  by_contra hmem
  rw [← dictFind_none_iff k m] at hmem
  rw [h] at hmem
  exact absurd hmem (by simp)

/-- In-place modification keeps the key sequence. -/
theorem keys_modify (k : Nat) (f : α → α) : ∀ (m : List (Nat × α)),
    (dictModify k f m).map Prod.fst = m.map Prod.fst := by
  intro m
  induction m with
  | nil => rfl
  | cons kv rest ih =>
    obtain ⟨k2, v⟩ := kv
    by_cases h : k2 = k
    · simp [dictModify, h]
    · simp [dictModify, h, ih]

/-- The inversion step appends the key exactly when it was absent. -/
theorem keys_addLinkedPR (p : PRInfo) (n : Nat) (m : List (Nat × IssueData)) :
    (addLinkedPR p n m).map Prod.fst
      = if dictHasKey n m then m.map Prod.fst else m.map Prod.fst ++ [n] := by
  unfold addLinkedPR
  by_cases h : dictHasKey n m
  · simp [h, keys_modify]
  · simp [h, keys_modify]

/-- The inversion step preserves key uniqueness. -/
theorem nodup_keys_addLinkedPR (p : PRInfo) (n : Nat) (m : List (Nat × IssueData))
    (h : (m.map Prod.fst).Nodup) : ((addLinkedPR p n m).map Prod.fst).Nodup := by
  rw [keys_addLinkedPR]
  by_cases hk : dictHasKey n m
  · simp [hk, h]
  · have hfind : dictFind n m = none := by
      cases hf : dictFind n m with
      | none => rfl
      | some d =>
        exfalso
        apply hk
        rw [dictHasKey_eq_isSome, hf]
        rfl
    have hnmem : n ∉ m.map Prod.fst := (dictFind_none_iff n m).mp hfind
    simp [hk]
    rw [List.nodup_append]
    refine ⟨h, List.nodup_singleton n, ?_⟩
    intro a ha hb
    rw [List.mem_singleton] at hb
    subst hb
    exact hnmem ha

/-- Lookup at the inserted key after one inversion step. -/
theorem dictFind_addLinkedPR_self (p : PRInfo) (n : Nat) (m : List (Nat × IssueData)) :
    dictFind n (addLinkedPR p n m)
      = some { ((dictFind n m).getD (emptyIssueData n)) with
          linked_prs := ((dictFind n m).getD (emptyIssueData n)).linked_prs ++ [mkStub p] } := by
  unfold addLinkedPR
  by_cases h : dictHasKey n m
  · rw [if_pos h, dictFind_modify_self]
    have hsome : (dictFind n m).isSome := by rw [← dictHasKey_eq_isSome]; exact h
    obtain ⟨b, hb⟩ := Option.isSome_iff_exists.mp hsome
    rw [hb]
    rfl
  · rw [if_neg h, dictFind_modify_self, dictFind_append]
    have hnone : dictFind n m = none := by
      cases hf : dictFind n m with
      | none => rfl
      | some d =>
        exfalso
        apply h
        rw [dictHasKey_eq_isSome, hf]
        rfl
    rw [hnone]
    simp [dictFind, emptyIssueData]

/-- Lookup at another key after one inversion step. -/
theorem dictFind_addLinkedPR_ne (p : PRInfo) (n n2 : Nat) (m : List (Nat × IssueData))
    (hne : n2 ≠ n) : dictFind n2 (addLinkedPR p n m) = dictFind n2 m := by
  unfold addLinkedPR
  by_cases h : dictHasKey n m
  · rw [if_pos h, dictFind_modify_ne n n2 hne]
  · rw [if_neg h, dictFind_modify_ne n n2 hne, dictFind_append]
    cases hf : dictFind n2 m with
    | some d => rfl
    | none =>
      have hnn2 : ¬(n = n2) := fun he => hne he.symm
      simp [dictFind, hnn2]

/-- One step of the inner reference loop. -/
theorem processRefs_cons (p : PRInfo) (r : Nat) (rest : List Nat) (m : List (Nat × IssueData)) :
    processRefs p (r :: rest) m = processRefs p rest (addLinkedPR p r m) := rfl

/-- Keys in the inner loop keep their uniqueness. -/
theorem nodup_keys_processRefs (p : PRInfo) : ∀ (refs : List Nat) (m : List (Nat × IssueData)),
    (m.map Prod.fst).Nodup → ((processRefs p refs m).map Prod.fst).Nodup := by
  intro refs
  induction refs with
  | nil => intro m h; exact h
  | cons r rest ih =>
    intro m h
    rw [processRefs_cons]
    exact ih (addLinkedPR p r m) (nodup_keys_addLinkedPR p r m h)

/-- The inner loop leaves unreferenced keys untouched. -/
theorem dictFind_processRefs_not_mem (p : PRInfo) (n : Nat) :
    ∀ (refs : List Nat) (m : List (Nat × IssueData)),
    n ∉ refs → dictFind n (processRefs p refs m) = dictFind n m := by
  intro refs
  induction refs with
  | nil => intro m _; rfl
  | cons r rest ih =>
    intro m hn
    rw [processRefs_cons]
    rw [ih (addLinkedPR p r m) (fun hmem => hn (List.mem_cons_of_mem r hmem))]
    exact dictFind_addLinkedPR_ne p r n m (fun he => hn (he ▸ List.mem_cons_self r rest))

/-- The inner loop appends one stub per occurrence of the referenced issue:
exactly `count n refs` copies of the stub. -/
theorem dictFind_processRefs_mem (p : PRInfo) (n : Nat) :
    ∀ (refs : List Nat) (m : List (Nat × IssueData)), n ∈ refs →
    dictFind n (processRefs p refs m)
      = some { ((dictFind n m).getD (emptyIssueData n)) with
          linked_prs := ((dictFind n m).getD (emptyIssueData n)).linked_prs
            ++ List.replicate (refs.count n) (mkStub p) } := by
  intro refs
  induction refs with
  | nil => intro m h; simp at h
  | cons r rest ih =>
    intro m hmem
    rw [processRefs_cons]
    by_cases hr : r = n
    · subst hr
      by_cases hrest : r ∈ rest
      · rw [ih (addLinkedPR p r m) hrest, dictFind_addLinkedPR_self p r m]
        simp only [Option.getD_some]
        rw [List.count_cons_self]
        congr 1
        simp [List.append_assoc, List.replicate_succ]
      · rw [dictFind_processRefs_not_mem p r rest _ hrest, dictFind_addLinkedPR_self p r m]
        simp only [Option.getD_some]
        rw [List.count_cons_self, List.count_eq_zero.mpr hrest]
        rfl
    · have hrest : n ∈ rest := by
        rcases List.mem_cons.mp hmem with he | h2
        · exact absurd he.symm hr
        · exact h2
      rw [ih (addLinkedPR p r m) hrest, dictFind_addLinkedPR_ne p r n m (fun he => hr he.symm)]
      rw [List.count_cons_of_ne (fun he => hr he.symm)]

/-- The inner loop never deletes an entry. -/
theorem isSome_processRefs (p : PRInfo) (n : Nat) :
    ∀ (refs : List Nat) (m : List (Nat × IssueData)),
    (dictFind n m).isSome → (dictFind n (processRefs p refs m)).isSome := by
  intro refs
  induction refs with
  | nil => intro m h; exact h
  | cons r rest ih =>
    intro m h
    rw [processRefs_cons]
    apply ih
    by_cases hr : r = n
    · subst hr
      rw [dictFind_addLinkedPR_self p r m]
      rfl
    · rw [dictFind_addLinkedPR_ne p r n m (fun he => hr he.symm)]
      exact h

/-- A stub predicate that the whole replicate block satisfies filters to the
whole block. -/
theorem filter_replicate_pos (st : LinkedPR) (pred : LinkedPR → Bool) (hp : pred st = true) :
    ∀ (j : Nat), (List.replicate j st).filter pred = List.replicate j st := by
  intro j
  induction j with
  | zero => rfl
  | succ j2 ih => simp [List.replicate_succ, hp, ih]

/-- Stubs appended for a PR with a different number do not change the count
of stubs carrying the watched number. -/
theorem stubCount_keep_processRefs (p : PRInfo) (q n : Nat) (hq : p.number ≠ q) :
    ∀ (refs : List Nat) (m : List (Nat × IssueData)) (d : IssueData),
    dictFind n m = some d →
    ∃ d2, dictFind n (processRefs p refs m) = some d2 ∧
      (d2.linked_prs.filter (fun st => st.number == q)).length
        = (d.linked_prs.filter (fun st => st.number == q)).length := by
  intro refs
  induction refs with
  | nil => intro m d hd; exact ⟨d, hd, rfl⟩
  | cons r rest ih =>
    intro m d hd
    rw [processRefs_cons]
    by_cases hr : r = n
    · subst hr
      have hstep := dictFind_addLinkedPR_self p r m
      rw [hd] at hstep
      simp only [Option.getD_some] at hstep
      obtain ⟨d2, hd2, hc2⟩ := ih (addLinkedPR p r m) _ hstep
      refine ⟨d2, hd2, ?_⟩
      rw [hc2]
      simp only [List.filter_append, List.length_append]
      have hstub : ((mkStub p).number == q) = false := by
        simp [mkStub]
        exact hq
      simp [List.filter_cons, hstub]
    · have hstep : dictFind n (addLinkedPR p r m) = some d := by
        rw [dictFind_addLinkedPR_ne p r n m (fun he => hr he.symm)]
        exact hd
      exact ih (addLinkedPR p r m) d hstep

/-- While no entry for `n` carries a stub numbered `q`, processing PRs whose
number is not `q` keeps it that way. -/
theorem stubCount_zero_processRefs (p : PRInfo) (q n : Nat) (hq : p.number ≠ q) :
    ∀ (refs : List Nat) (m : List (Nat × IssueData)),
    (∀ d, dictFind n m = some d → (d.linked_prs.filter (fun st => st.number == q)).length = 0) →
    ∀ d2, dictFind n (processRefs p refs m) = some d2 →
    (d2.linked_prs.filter (fun st => st.number == q)).length = 0 := by
  intro refs
  induction refs with
  | nil => intro m hm d2 h2; exact hm d2 h2
  | cons r rest ih =>
    intro m hm d2 h2
    rw [processRefs_cons] at h2
    apply ih (addLinkedPR p r m) ?_ d2 h2
    intro d hd
    by_cases hr : r = n
    · subst hr
      rw [dictFind_addLinkedPR_self p r m] at hd
      have hstub : ((mkStub p).number == q) = false := by
        simp [mkStub]
        exact hq
      cases hf : dictFind r m with
      | none =>
        rw [hf] at hd
        simp only [Option.getD_none] at hd
        have hd' := Option.some.inj hd
        rw [← hd']
        simp [emptyIssueData, List.filter_cons, hstub]
      | some b =>
        rw [hf] at hd
        simp only [Option.getD_some] at hd
        have hd' := Option.some.inj hd
        rw [← hd']
        simp only [List.filter_append, List.length_append]
        rw [hm b hf]
        simp [List.filter_cons, hstub]
    · rw [dictFind_addLinkedPR_ne p r n m (fun he => hr he.symm)] at hd
      exact hm d hd

/-- Keys stay unique through the outer inversion fold. -/
theorem nodup_keys_invert_foldl : ∀ (l : List (Nat × PRInfo)) (m : List (Nat × IssueData)),
    (m.map Prod.fst).Nodup →
    ((l.foldl (fun acc kv => processRefs kv.2 kv.2.referenced_issues acc) m).map Prod.fst).Nodup := by
  intro l
  induction l with
  | nil => intro m h; exact h
  | cons kv rest ih =>
    intro m h
    rw [List.foldl_cons]
    exact ih _ (nodup_keys_processRefs kv.2 kv.2.referenced_issues m h)

/-- Zero watched-stub count is preserved by folding entries whose PR number
is not the watched one. -/
theorem stubCount_zero_foldl (q n : Nat) : ∀ (l : List (Nat × PRInfo)) (m : List (Nat × IssueData)),
    (∀ kv ∈ l, kv.2.number ≠ q) →
    (∀ d, dictFind n m = some d → (d.linked_prs.filter (fun st => st.number == q)).length = 0) →
    ∀ d2, dictFind n (l.foldl (fun acc kv => processRefs kv.2 kv.2.referenced_issues acc) m)
      = some d2 →
    (d2.linked_prs.filter (fun st => st.number == q)).length = 0 := by
  intro l
  induction l with
  | nil => intro m _ hm d2 h2; exact hm d2 h2
  | cons kv rest ih =>
    intro m hl hm d2 h2
    rw [List.foldl_cons] at h2
    apply ih _ (fun kv2 h2m => hl kv2 (List.mem_cons_of_mem kv h2m)) ?_ d2 h2
    intro d hd
    exact stubCount_zero_processRefs kv.2 q n (hl kv (List.mem_cons_self kv rest))
      kv.2.referenced_issues m hm d hd

/-- An existing entry and its watched-stub count survive folding entries
whose PR number is not the watched one. -/
theorem stubCount_keep_foldl (q n : Nat) : ∀ (l : List (Nat × PRInfo))
    (m : List (Nat × IssueData)) (d : IssueData),
    (∀ kv ∈ l, kv.2.number ≠ q) →
    dictFind n m = some d →
    ∃ d2, dictFind n (l.foldl (fun acc kv => processRefs kv.2 kv.2.referenced_issues acc) m)
        = some d2 ∧
      (d2.linked_prs.filter (fun st => st.number == q)).length
        = (d.linked_prs.filter (fun st => st.number == q)).length := by
  intro l
  induction l with
  | nil => intro m d _ hd; exact ⟨d, hd, rfl⟩
  | cons kv rest ih =>
    intro m d hl hd
    rw [List.foldl_cons]
    obtain ⟨d1, hd1, hc1⟩ := stubCount_keep_processRefs kv.2 q n
      (hl kv (List.mem_cons_self kv rest)) kv.2.referenced_issues m d hd
    obtain ⟨d2, hd2, hc2⟩ := ih _ d1 (fun kv2 h2m => hl kv2 (List.mem_cons_of_mem kv h2m)) hd1
    exact ⟨d2, hd2, by rw [hc2, hc1]⟩

/-- C8: if a change-set's reference list mentions issue `n` with
multiplicity `k ≥ 1`, then after inversion the issue appears exactly once as
a map key, and its node's `linked_prs` holds exactly `k` stubs for that
change-set. -/
theorem C8_duplicate_refs (mapping : List (Nat × PRInfo)) (prn : Nat) (info : PRInfo)
    (n k : Nat)
    (hkeys : (mapping.map Prod.fst).Nodup)
    (hnum : ∀ kv ∈ mapping, kv.2.number = kv.1)
    (hmem : (prn, info) ∈ mapping)
    (hcount : info.referenced_issues.count n = k)
    (hk : 1 ≤ k) :
    ((invertMapping mapping).map Prod.fst).count n = 1 ∧
    ∃ d, dictFind n (invertMapping mapping) = some d ∧
      (d.linked_prs.filter (fun st => st.number == prn)).length = k := by
  obtain ⟨l1, l2, hsplit⟩ := List.append_of_mem hmem
  subst hsplit
  have hkeysapp := hkeys
  rw [List.map_append, List.map_cons] at hkeysapp
  have h1le := List.nodup_iff_count_le_one.mp hkeysapp prn
  rw [List.count_append, List.count_cons_self] at h1le
  have hK1 : (l1.map Prod.fst).count prn = 0 := by omega
  have hK2 : (l2.map Prod.fst).count prn = 0 := by omega
  have hl1ne : ∀ kv ∈ l1, kv.2.number ≠ prn := by
    intro kv hkv he
    have h1 : kv.2.number = kv.1 := hnum kv (List.mem_append_left _ hkv)
    have hmemk : prn ∈ l1.map Prod.fst := by
      refine List.mem_map.mpr ⟨kv, hkv, ?_⟩
      rw [← h1]
      exact he
    have := List.count_pos_iff.mpr hmemk
    omega
  have hl2ne : ∀ kv ∈ l2, kv.2.number ≠ prn := by
    intro kv hkv he
    have h1 : kv.2.number = kv.1 := hnum kv (List.mem_append_right _ (List.mem_cons_of_mem _ hkv))
    have hmemk : prn ∈ l2.map Prod.fst := by
      refine List.mem_map.mpr ⟨kv, hkv, ?_⟩
      rw [← h1]
      exact he
    have := List.count_pos_iff.mpr hmemk
    omega
  have hinfonum : info.number = prn :=
    hnum (prn, info) (List.mem_append_right _ (List.mem_cons_self _ _))
  unfold invertMapping
  rw [List.foldl_append, List.foldl_cons]
  have hzero : ∀ d, dictFind n
      (l1.foldl (fun acc kv => processRefs kv.2 kv.2.referenced_issues acc) []) = some d →
      (d.linked_prs.filter (fun st => st.number == prn)).length = 0 := by
    intro d hd
    exact stubCount_zero_foldl prn n l1 [] hl1ne (by intro d0 h0; simp [dictFind] at h0) d hd
  have hmemref : n ∈ info.referenced_issues := by
    apply List.count_pos_iff.mp
    rw [hcount]
    omega
  have hmid := dictFind_processRefs_mem info n info.referenced_issues
    (l1.foldl (fun acc kv => processRefs kv.2 kv.2.referenced_issues acc) []) hmemref
  have hbase0 : ((((dictFind n
        (l1.foldl (fun acc kv => processRefs kv.2 kv.2.referenced_issues acc) [])).getD
        (emptyIssueData n)).linked_prs.filter (fun st => st.number == prn)).length) = 0 := by
    cases hf : dictFind n (l1.foldl (fun acc kv => processRefs kv.2 kv.2.referenced_issues acc) [])
      with
    | none => simp [emptyIssueData]
    | some d0 => simpa using hzero d0 hf
  have hstub : ((mkStub info).number == prn) = true := by
    simp [mkStub]
    exact hinfonum
  have hmidcount :
      (({ ((dictFind n (l1.foldl (fun acc kv => processRefs kv.2 kv.2.referenced_issues acc)
          [])).getD (emptyIssueData n)) with
        linked_prs := (((dictFind n (l1.foldl (fun acc kv =>
          processRefs kv.2 kv.2.referenced_issues acc) [])).getD
          (emptyIssueData n)).linked_prs
            ++ List.replicate (info.referenced_issues.count n) (mkStub info)) }
        : IssueData).linked_prs.filter (fun st => st.number == prn)).length = k := by
    simp only [List.filter_append, List.length_append]
    rw [hbase0, filter_replicate_pos (mkStub info) _ hstub, List.length_replicate, hcount]
    omega
  obtain ⟨dfin, hdfin, hcfin⟩ := stubCount_keep_foldl prn n l2 _ _ hl2ne hmid
  rw [hmidcount] at hcfin
  refine ⟨?_, dfin, hdfin, hcfin⟩
  have hnodupfin := nodup_keys_invert_foldl l2
    (processRefs info info.referenced_issues
      (l1.foldl (fun acc kv => processRefs kv.2 kv.2.referenced_issues acc) []))
    (nodup_keys_processRefs info info.referenced_issues _
      (nodup_keys_invert_foldl l1 [] (by simp)))
  have hmemkeys := mem_keys_of_find_some n _ dfin hdfin
  exact List.count_eq_one_of_mem hnodupfin hmemkeys

/-- Witness for C8: PR 10 references issue 5 twice (and issue 9 once), PR 11
references issue 5 once; issue 5 keys the inverted map exactly once and its
node carries exactly two stubs for PR 10. -/
theorem C8_witness :
    ((invertMapping dupMapping).map Prod.fst).count 5 = 1 ∧
    ∃ d, dictFind 5 (invertMapping dupMapping) = some d ∧
      (d.linked_prs.filter (fun st => st.number == 10)).length = 2 :=
  C8_duplicate_refs dupMapping 10 dupInfo 5 2 (by decide) (by decide) (by decide)
    (by decide) (by decide)

end DatasetBuilder
